import Mathlib

/-!
# Verification of the JAMS python utility library

A shallow embedding, in Lean 4, of the functions of the JAMS python
package (`jams/division.py`, `jams/argsort.py`, `jams/sread.py`,
`jams/readhdf4.py`, `readhdf5.py`) together with proofs of the
behavioural properties stated in the package's specification.

Modelling conventions:
* Python strings are modelled as `List Char`; numeric values as `ℚ`.
* Machine floats are modelled by rationals: the claims under study are
  about selection, ordering and control flow, not rounding.
* Fallible functions return `Except PyErr _`.  The constructors of
  `PyErr` mirror the python exception classes that can escape a call.
* Stateful details (the numpy error-state dictionary, the open/closed
  state of a file handle) are threaded explicitly.
* Python name resolution matters for two of the error paths (an
  `except` clause referring to a never-imported class, and an error
  message referring to a misspelled variable): the set of names in
  scope in each module is reproduced from the source's `import` and
  assignment statements, and name lookup is modelled explicitly.
-/

namespace Jams

/-- Python exceptions (and one marker for a reading loop that can spin
forever at end of file, see `sread`). -/
inductive PyErr where
  | ioError (msg : String)
  | valueError (msg : String)
  | nameError (name : String)
  | typeError
  | indexError
  | hang
  deriving DecidableEq, Repr

/-- Equality of `Except` results is decidable (needed to evaluate the
model on concrete inputs). -/
instance {ε α : Type} [DecidableEq ε] [DecidableEq α] : DecidableEq (Except ε α) := fun x y =>
  match x, y with
  | Except.ok a, Except.ok b =>
    if h : a = b then isTrue (by rw [h]) else isFalse (fun hh => by cases hh; exact h rfl)
  | Except.error e, Except.error f =>
    if h : e = f then isTrue (by rw [h]) else isFalse (fun hh => by cases hh; exact h rfl)
  | Except.ok _, Except.error _ => isFalse (fun hh => by cases hh)
  | Except.error _, Except.ok _ => isFalse (fun hh => by cases hh)

/-! ## Python string primitives

`pyRstrip`, `pyStrip`, `pySplit` reproduce `str.rstrip()`,
`str.strip(chars)` and `str.split(sep)` for single-character
separators (`sep = none` models python's whitespace-run splitting
`str.split(None)`). -/

/-- The characters stripped by python's no-argument `str.strip`/`str.rstrip`. -/
def pySpace : List Char := [' ', '\t', '\n', '\r', Char.ofNat 11, Char.ofNat 12]

/-- `s.rstrip()`: remove trailing whitespace. -/
def pyRstrip (s : List Char) : List Char :=
  (s.reverse.dropWhile (· ∈ pySpace)).reverse

/-- `s.strip(cs)`: remove leading and trailing characters belonging to `cs`. -/
def pyStrip (cs : List Char) (s : List Char) : List Char :=
  ((s.dropWhile (· ∈ cs)).reverse.dropWhile (· ∈ cs)).reverse

/-- `s.strip()`: remove leading and trailing whitespace. -/
def pyStripWS (s : List Char) : List Char := pyStrip pySpace s

/-- `s.split(sep)`.  `some c` is a one-character separator (every
occurrence splits, empty fields are kept); `none` is python's
whitespace splitting (split at whitespace runs, no empty fields). -/
def pySplit (sep : Option Char) (s : List Char) : List (List Char) :=
  match sep with
  | some c => s.splitOn c
  | none => (s.splitOnP (· ∈ pySpace)).filter (· ≠ [])

/-! ## `jams/division.py`

```
def division(a, b, otherwise=np.nan, prec=0.):
    oldsettings = np.geterr()
    np.seterr(divide='ignore')
    if isinstance(a, np.ma.masked_array) or isinstance(b, np.ma.masked_array):
        out = np.ma.where(np.ma.abs(np.ma.array(b)) > np.abs(prec), ...)
    else:
        out = np.where(np.abs(np.array(b)) > np.abs(prec), np.array(a)/np.array(b), otherwise)
    np.seterr(**oldsettings)
    return out
```

The plain (non-masked) branch is modelled, for equal-length numeric
arrays.  The numpy floating-point-error settings are threaded through
explicitly so that the function's effect on them is visible. -/

/-- One numpy floating-point error policy (value of one entry of `np.geterr()`). -/
inductive ErrMode where
  | ignore | warn | raiseMode | call | print | log
  deriving DecidableEq, Repr

/-- The numpy floating-point error settings, i.e. the dictionary
returned by `np.geterr()`. -/
structure NpErrState where
  divide : ErrMode
  over : ErrMode
  under : ErrMode
  invalid : ErrMode
  deriving DecidableEq, Repr

/-- `division(a, b, otherwise, prec)` from `jams/division.py`
(non-masked branch), threading the numpy error state.  `np.where`
selects element-wise between `a/b` and `otherwise` according to
`|b| > |prec|`. -/
def division (st : NpErrState) (a b : List ℚ) (otherwise : ℚ) (prec : ℚ) :
    List ℚ × NpErrState :=
  let oldsettings := st
  let st1 : NpErrState := { st with divide := ErrMode.ignore }
  let out := (a.zip b).map (fun p => if |p.2| > |prec| then p.1 / p.2 else otherwise)
  let st2 := oldsettings
  let _ := st1
  (out, st2)

/-- `div(...)` from `jams/division.py`: a plain wrapper around `division`. -/
def div' (st : NpErrState) (a b : List ℚ) (otherwise : ℚ) (prec : ℚ) :
    List ℚ × NpErrState :=
  division st a b otherwise prec

/-! ## `jams/argsort.py`

`argsort`, `argmax`, `argmin` dispatch on the type of the argument:

```
def argsort(a, *args, **kwargs):
    if isinstance(a, np.ma.MaskedArray):
        return np.ma.argsort(a, *args, **kwargs)
    elif isinstance(a, np.ndarray):
        return np.argsort(a, *args, **kwargs)
    else:
        return iargsort(a, *args, **kwargs)
```

A masked array is a list of pairs (value, mask-flag); a flag of `true`
marks the entry invalid.  `npArgsort` models `numpy.argsort` as a
deterministic sort of the index range by value; `numpy.ma.argsort`
with an explicit `fill_value` fills the masked entries and then calls
the plain `argsort` on the result, which `npmaArgsort` reproduces. -/

/-- `numpy.ma.MaskedArray.filled(fill_value)`: data where the mask is
false, `fill_value` where it is true. -/
def maFilled (a : List (ℚ × Bool)) (v : ℚ) : List ℚ :=
  a.map (fun p => if p.2 then v else p.1)

/-- Model of `numpy.argsort(l)`: the index range of `l` sorted by value. -/
def npArgsort (l : List ℚ) : List ℕ :=
  (List.range l.length).mergeSort (fun i j => decide (l.getD i 0 ≤ l.getD j 0))

/-- `numpy.ma.argsort(a, fill_value=v)`: fill the masked entries with
`v`, then argsort the filled array. -/
def npmaArgsort (a : List (ℚ × Bool)) (v : ℚ) : List ℕ :=
  npArgsort (maFilled a v)

/-- `argsort` from `jams/argsort.py`, branch for masked-array input
with an explicit `fill_value`: delegates to `np.ma.argsort`. -/
def argsort_masked (a : List (ℚ × Bool)) (v : ℚ) : List ℕ :=
  npmaArgsort a v

/-- `iargsort` from `jams/argsort.py`:
`sorted(range(len(seq)), key=seq.__getitem__)` (python's sort is a
stable mergesort). -/
def iargsort (seq : List ℚ) : List ℕ :=
  (List.range seq.length).mergeSort (fun i j => decide (seq.getD i 0 ≤ seq.getD j 0))

/-- Python's `max(l, key=lambda x: x[1])`: fold keeping the current
element unless a strictly larger key appears, so the first element
with the maximal key wins.  `none` on the empty list (python raises
`ValueError` there). -/
def pyMaxBySnd (l : List (ℕ × ℚ)) : Option (ℕ × ℚ) :=
  match l with
  | [] => none
  | x :: xs => some (xs.foldl (fun best p => if p.2 > best.2 then p else best) x)

/-- Python's `min(l, key=lambda x: x[1])`: the first element with the
minimal key wins. -/
def pyMinBySnd (l : List (ℕ × ℚ)) : Option (ℕ × ℚ) :=
  match l with
  | [] => none
  | x :: xs => some (xs.foldl (fun best p => if p.2 < best.2 then p else best) x)

/-- `iargmax` from `jams/argsort.py`:
`max(enumerate(iterable), key=lambda x: x[1])[0]`. -/
def iargmax (l : List ℚ) : Option ℕ :=
  (pyMaxBySnd l.enum).map Prod.fst

/-- `iargmin` from `jams/argsort.py`:
`min(enumerate(iterable), key=lambda x: x[1])[0]`. -/
def iargmin (l : List ℚ) : Option ℕ :=
  (pyMinBySnd l.enum).map Prod.fst

/-- `argmax` from `jams/argsort.py`, branch for a plain python
iterable (neither `np.ndarray` nor `np.ma.MaskedArray`): delegates to
`iargmax`. -/
def argmax_iterable (l : List ℚ) : Option ℕ := iargmax l

/-- `argmin` from `jams/argsort.py`, branch for a plain python
iterable: delegates to `iargmin`. -/
def argmin_iterable (l : List ℚ) : Option ℕ := iargmin l

/-! ## The HDF readers: `jams/readhdf4.py` and `readhdf5.py`

Both follow the same skeleton: open the container file, then depending
on the options return the file attributes, the list of variable names,
the attributes of one variable, or the data of one variable.  The
claims under study concern their error paths, which depend on python
*name resolution*:

* `readhdf4` guards the open with `except HDF4Error:`, but the module
  only ever imports `SD` from `pyhdf.SD` — `HDF4Error` is not a name
  in scope, so when the open fails the handler itself raises
  `NameError`.
* `readhdf5` reports an unknown variable with
  `raise ValueError('variable '+var+' not in file '+fname)`, but the
  parameter is spelled `fName`; evaluating the message raises
  `NameError` before the `ValueError` is constructed.

Name lookup is modelled by membership in the list of names actually
bound in the module/function, reproduced from the source. -/

/-- A dataset of an HDF4/HDF5 container: a 2-d array plus attributes. -/
structure HVar where
  data : List (List ℚ)
  attrs : List (String × ℚ)
  readable : Bool
  deriving DecidableEq, Repr

/-- An HDF4/HDF5 container file: file attributes plus named datasets. -/
structure HFile where
  fileattrs : List (String × ℚ)
  dsets : List (String × HVar)
  deriving DecidableEq, Repr

/-- Results of the HDF readers. -/
inductive HOut where
  | attrs (a : List (String × ℚ))
  | vars (names : List String)
  | data2 (rows : List (List ℚ))
  | data1 (xs : List ℚ)
  | scalar (x : ℚ)
  deriving DecidableEq, Repr

/-- Model of `numpy.squeeze` on a 2-d array: drop the length-one axes. -/
def npSqueeze (rows : List (List ℚ)) : HOut :=
  if rows.length = 1 then
    if (rows.headD []).length = 1 then HOut.scalar ((rows.headD []).headD 0)
    else HOut.data1 (rows.headD [])
  else if rows.all (fun r => r.length = 1) then HOut.data1 (rows.map (·.headD 0))
  else HOut.data2 rows

/-- Python name lookup: is `n` bound in environment `env`? -/
def lookupName (env : List String) (n : String) : Bool := env.contains n

/-- The names in scope inside the function `readhdf4` of
`jams/readhdf4.py`: its parameters, its local assignments, the names
it imports, and the module-level bindings.  Note that neither
`HDF4Error` nor `Error` nor `fname` is among them. -/
def readhdf4Names : List String :=
  ["fName", "var", "reform", "squeeze", "variables", "attributes",
   "fileattributes", "sort", "SD", "f", "attr", "svars", "attrs", "arr",
   "np", "readhdf4", "hdf4read"]

/-- `readhdf4(fName, var, reform, squeeze, variables, attributes,
fileattributes, sort)` from `jams/readhdf4.py`.  `pyhdf` says whether
`from pyhdf.SD import SD` succeeds; `fs` maps a file name to its
contents, `none` when `SD(fName)` raises `HDF4Error`. -/
def readhdf4 (pyhdf : Bool) (fs : String → Option HFile) (fName : String)
    (var : String) (reform squeeze variables' attributes fileattributes sort : Bool) :
    Except PyErr HOut :=
  if ¬ pyhdf then
    -- `raise Error('No HDF4 support available, i.e. pyhdf')`
    if lookupName readhdf4Names "Error" then
      Except.error (PyErr.valueError "No HDF4 support available, i.e. pyhdf")
    else Except.error (PyErr.nameError "Error")
  else
    match fs fName with
    | none =>
      -- `except HDF4Error: raise IOError('Cannot open file: '+fName)`
      if lookupName readhdf4Names "HDF4Error" then
        Except.error (PyErr.ioError ("Cannot open file: " ++ fName))
      else Except.error (PyErr.nameError "HDF4Error")
    | some f =>
      if fileattributes then Except.ok (HOut.attrs f.fileattrs)
      else
        let svars := f.dsets.map Prod.fst
        if variables' then
          if sort then Except.ok (HOut.vars (svars.mergeSort (fun a b => decide (a ≤ b))))
          else Except.ok (HOut.vars svars)
        else if attributes then
          if ¬ svars.contains var then
            -- `raise ValueError('Variable '+var+' not in file '+fname)`
            if lookupName readhdf4Names "fname" then
              Except.error (PyErr.valueError ("Variable " ++ var ++ " not in file " ++ fName))
            else Except.error (PyErr.nameError "fname")
          else Except.ok (HOut.attrs (((f.dsets.lookup var).getD ⟨[], [], true⟩).attrs))
        else if var = "" then Except.error (PyErr.valueError "Variable name has to be given.")
        else if ¬ svars.contains var then
          if lookupName readhdf4Names "fname" then
            Except.error (PyErr.valueError ("Variable " ++ var ++ " not in file " ++ fName))
          else Except.error (PyErr.nameError "fname")
        else
          let arr := ((f.dsets.lookup var).getD ⟨[], [], true⟩).data
          if reform || squeeze then Except.ok (npSqueeze arr)
          else Except.ok (HOut.data2 arr)

/-- The names in scope inside the function `readhdf5` of `readhdf5.py`
(repository root): parameters, local assignments, module-level
bindings.  `fname` (lower case) is not among them. -/
def readhdf5Names : List String :=
  ["fName", "var", "reform", "squeeze", "variables", "attributes",
   "fileattributes", "sort", "f", "attrs", "attr", "a", "vars", "nvars",
   "svars", "ivars", "arr", "np", "hdf", "readhdf5"]

/-- `readhdf5(fName, var, reform, squeeze, variables, attributes,
fileattributes, sort)` from `readhdf5.py`.  `fs` maps a file name to
its contents, `none` when `hdf.File(fName, 'r')` raises `IOError`;
a dataset with `readable = false` raises `IOError` when sliced. -/
def readhdf5 (fs : String → Option HFile) (fName : String)
    (var : String) (reform squeeze variables' attributes fileattributes sort : Bool) :
    Except PyErr HOut :=
  match fs fName with
  | none =>
    -- `except IOError: raise IOError('Cannot open file: '+fName)`
    Except.error (PyErr.ioError ("Cannot open file: " ++ fName))
  | some f =>
    if fileattributes then Except.ok (HOut.attrs f.fileattrs)
    else
      let vars := f.dsets.map Prod.fst
      let svars := vars.mergeSort (fun a b => decide (a ≤ b))
      let _ivars := svars.map (fun v => vars.indexOf v)
      if variables' then
        if sort then Except.ok (HOut.vars svars) else Except.ok (HOut.vars vars)
      else if attributes then
        if ¬ vars.contains var then
          -- `raise ValueError('variable '+var+' not in file '+fname)`
          if lookupName readhdf5Names "fname" then
            Except.error (PyErr.valueError ("variable " ++ var ++ " not in file " ++ fName))
          else Except.error (PyErr.nameError "fname")
        else Except.ok (HOut.attrs (((f.dsets.lookup var).getD ⟨[], [], true⟩).attrs))
      else if var = "" then Except.error (PyErr.valueError "Variable name has to be given.")
      else if ¬ vars.contains var then
        if lookupName readhdf5Names "fname" then
          Except.error (PyErr.valueError ("variable " ++ var ++ " not in file " ++ fName))
        else Except.error (PyErr.nameError "fname")
      else
        let v := (f.dsets.lookup var).getD ⟨[], [], true⟩
        if ¬ v.readable then
          -- `except IOError: raise IOError('Cannot read variable '+var+' in file '+fname)`
          if lookupName readhdf5Names "fname" then
            Except.error (PyErr.ioError ("Cannot read variable " ++ var ++ " in file " ++ fName))
          else Except.error (PyErr.nameError "fname")
        else if reform || squeeze then Except.ok (npSqueeze v.data)
        else Except.ok (HOut.data2 v.data)

/-! ## `jams/sread.py`

`sread` reads a delimited text file into a table of string cells.  The
model takes the file as a list of lines (`codecs.open` and the byte
decoding governed by `encoding`/`errors` are upstream of that list)
and follows the source statement by statement:

* lines 298-308: skip `hskip` lines, read `skip - hskip` header lines;
* lines 311-321: scan for the first data line, skipping blanks
  (`skip_blank`) and comment lines; note that at end of file
  `f.readline()` returns `''` forever, so with `skip_blank=True` this
  loop never terminates — modelled by the error marker `PyErr.hang`;
* lines 322-337: separator sniffing (comma, then semicolon, then
  whitespace) when `separator` is not given;
* lines 340-342: `nc` and `cname` are mutually exclusive;
* lines 343-367: determine the selected column indices `iinc`;
* line 368: `miinc = max(iinc)` — python's `max` raises `ValueError`
  on an empty selection, and this raise is *not* preceded by
  `f.close()`, unlike every explicit `raise` in the function;
* lines 371-403: the header path, lines 405-443: the data path, both
  ending in `f.close()` and the list post-processing (fill
  replacement, squeeze, transpose).

The returned pair is the call's outcome together with a flag telling
whether the file handle was closed by the time the call ended.  The
numpy output variant `strarr=True` is not modelled (same cells, numpy
container); python's negative column indices are not modelled (`nc`
lists are lists of naturals). -/

/-- The keyword arguments of `sread`. -/
structure SArgs where
  nc : Int ⊕ List ℕ
  cname : Option (List (List Char))
  skip : ℕ
  cskip : ℕ
  hskip : ℕ
  hstrip : Bool
  separator : Option Char
  squeeze : Bool
  reform : Bool
  skip_blank : Bool
  comment : Option (List Char)
  fill : Bool
  fill_value : List Char
  strip : Option (List Char)
  header : Bool
  full_header : Bool
  transpose : Bool
  deriving Repr

/-- The default arguments of `sread`:
`nc=0, cname=None, skip=0, cskip=0, hskip=0, hstrip=True,
separator=None, squeeze=False, reform=False, skip_blank=False,
comment=None, fill=False, fill_value='', strip=None, header=False,
full_header=False, transpose=False`. -/
def SArgs.default : SArgs :=
  ⟨Sum.inl 0, none, 0, 0, 0, true, none, false, false, false, none,
   false, [], none, false, false, false⟩

/-- The result value of `sread` (list output): a table of rows of
cells, a flat vector of cells, or python's `None`. -/
inductive SOut where
  | table (rows : List (List (List Char)))
  | vector (cells : List (List Char))
  | pyNone
  deriving DecidableEq, Repr

/-- `nc != 0` in python: an `int` equal to `0` is falsy, every list
(even the empty one) compares unequal to `0`. -/
def ncNonzero : Int ⊕ List ℕ → Bool
  | Sum.inl n => decide (n ≠ 0)
  | Sum.inr _ => true

/-- Does the line start with a comment character?
(`s[0] in comment`, only asked on non-empty `s`.) -/
def commentHit (comment : Option (List Char)) (s : List Char) : Bool :=
  match comment with
  | none => false
  | some cs => s.headD ' ' ∈ cs

/-- Lines 311-321: the `while True` scan for the first data line.
Returns the rstripped line together with the unread rest of the file;
a blank line with `skip_blank=False` breaks the scan with `s = ''`.
`none` models the non-terminating spin at end of file when
`skip_blank=True`. -/
def firstDataLine (skip_blank : Bool) (comment : Option (List Char)) :
    List (List Char) → Option (List Char × List (List Char))
  | [] => if skip_blank then none else some ([], [])
  | l :: r =>
    let s := pyRstrip l
    if s = [] then
      if skip_blank then firstDataLine skip_blank comment r else some ([], r)
    else if commentHit comment s then firstDataLine skip_blank comment r
    else some (s, r)

/-- Lines 322-337: separator sniffing.  With no separator given, try
comma, then semicolon, then whitespace; return the separator together
with the split of the first data line. -/
def sniffSep (separator : Option Char) (s : List Char) :
    Option Char × List (List Char) :=
  match separator with
  | some c => (some c, pySplit (some c) s)
  | none =>
    let res := pySplit (some ',') s
    if res.length = 1 then
      let res2 := pySplit (some ';') s
      if res2.length = 1 then (none, pySplit none s)
      else (some ';', res2)
    else (some ',', res)

/-- The stripping applied to every selected cell (`line2var`,
lines 449-454): by default strip double then single quotes; an empty
`strip` string (falsy in python) strips nothing; otherwise strip the
given characters. -/
def stripFun (strip : Option (List Char)) (s : List Char) : List Char :=
  match strip with
  | none => pyStrip [Char.ofNat 39] (pyStrip ['"'] s)
  | some [] => s
  | some cs => pyStrip cs s

/-- `line2var` (lines 447-459): pick the selected columns that exist
in the split line, strip them, and pad with `''` for every selected
index beyond the line's width. -/
def line2var (res : List (List Char)) (iinc : List ℕ) (strip : Option (List Char)) :
    List (List Char) :=
  let nres := res.length
  let tmp := (iinc.filter (fun i => i < nres)).map (fun i => stripFun strip (res.getD i []))
  let rest := (iinc.filter (fun i => ¬ i < nres)).length
  tmp ++ List.replicate rest []

/-- Everything `sread` has computed by line 368: the header lines, the
first data line and its split, the separator, the unread rest of the
file, and the selected column indices with their maximum. -/
structure SSetup where
  head : List (List Char)
  s : List Char
  res : List (List Char)
  rest : List (List Char)
  sep : Option Char
  iinc : List ℕ
  miinc : ℕ
  deriving DecidableEq, Repr

/-- Line 368: `miinc = max(iinc)`.  On an empty selection python's
`max` raises `ValueError('max() arg is an empty sequence')`, and no
`f.close()` guards this raise: the handle stays open. -/
def mkSetup (head : List (List Char)) (s : List Char) (res : List (List Char))
    (rest : List (List Char)) (sep : Option Char) (iinc : List ℕ) :
    Except PyErr SSetup × Bool :=
  match iinc.max? with
  | none => (Except.error (PyErr.valueError "max() arg is an empty sequence"), false)
  | some m => (Except.ok ⟨head, s, res, rest, sep, iinc, m⟩, false)

/-- Lines 322-368 of `sread`, given the header lines, the first data
line and the unread rest of the file: separator sniffing, the
mutual-exclusion check, column-index determination and `max(iinc)`. -/
def sreadSetupLine (args : SArgs) (head : List (List Char)) (s : List Char)
    (rest : List (List Char)) : Except PyErr SSetup × Bool :=
  let sep := (sniffSep args.separator s).1
  let res := (sniffSep args.separator s).2
  if ncNonzero args.nc && args.cname.isSome then
    (Except.error (PyErr.valueError "nc and cname are mutually exclusive."), true)
  else
    match args.cname with
    | some cn0 =>
      if args.skip - args.hskip = 0 then
        (Except.error (PyErr.ioError "No header line left for choosing columns by name."), true)
      else
        let cn := if args.hstrip then cn0.map pyStripWS else cn0
        let hres0 := pySplit sep (head.headD [])
        let hres := if args.hstrip then hres0.map pyStripWS else hres0
        mkSetup head s res rest sep
          ((List.range hres.length).filter (fun k => hres.getD k [] ∈ cn))
    | none =>
      match args.nc with
      | Sum.inr lst => mkSetup head s res rest sep lst
      | Sum.inl n =>
        if n ≤ 0 then mkSetup head s res rest sep (List.range' args.cskip (res.length - args.cskip))
        else mkSetup head s res rest sep (List.range' args.cskip n.toNat)

/-- Lines 292-368 of `sread`: everything up to and including the
computation of `miinc`.  The boolean flag tells whether the file
handle has been closed (only the explicit raises close it here). -/
def sreadSetup (args : SArgs) (file : List (List Char)) :
    Except PyErr SSetup × Bool :=
  let ls1 := file.drop args.hskip
  let head := (List.range (args.skip - args.hskip)).map (fun i => pyRstrip (ls1.getD i []))
  let ls2 := ls1.drop (args.skip - args.hskip)
  match firstDataLine args.skip_blank args.comment ls2 with
  | none => (Except.error PyErr.hang, false)
  | some (s, rest) => sreadSetupLine args head s rest

/-- The fill replacement (lines 396-397 / 435-436):
`[[fill_value if i=='' else i for i in row] for row in var]`.
Iterating a *string* row in this comprehension yields its characters,
turning a vector of cells into a table of one-character cells. -/
def applyFill (fill : Bool) (fill_value : List Char) : SOut → Except PyErr SOut
  | SOut.pyNone => if fill then Except.error PyErr.typeError else Except.ok SOut.pyNone
  | SOut.table rows =>
    Except.ok (if fill then
      SOut.table (rows.map (fun r => r.map (fun c => if c = [] then fill_value else c)))
    else SOut.table rows)
  | SOut.vector cells =>
    if fill then Except.ok (SOut.table (cells.map (fun c => c.map (fun ch => [ch]))))
    else Except.ok (SOut.vector cells)

/-- The squeeze step (lines 398-400 / 437-439): if every row has at
most one entry (`max` of the lengths equals 1) keep only the first
entry of each row.  Python's `max` raises on an empty list, and `i[0]`
raises `IndexError` on an empty row. -/
def applySqueeze (sq : Bool) : SOut → Except PyErr SOut
  | SOut.pyNone => if sq then Except.error PyErr.typeError else Except.ok SOut.pyNone
  | SOut.table rows =>
    if sq then
      if rows = [] then Except.error (PyErr.valueError "max() arg is an empty sequence")
      else
        let maxi := (rows.map List.length).foldr Nat.max 0
        if maxi = 1 then
          if rows.any (fun r => r = []) then Except.error PyErr.indexError
          else Except.ok (SOut.vector (rows.map (fun r => r.headD [])))
        else Except.ok (SOut.table rows)
    else Except.ok (SOut.table rows)
  | SOut.vector cells =>
    if sq then
      if cells = [] then Except.error (PyErr.valueError "max() arg is an empty sequence")
      else
        let maxi := (cells.map List.length).foldr Nat.max 0
        if maxi = 1 then
          if cells.any (fun c => c = []) then Except.error PyErr.indexError
          else Except.ok (SOut.vector (cells.map (fun c => [c.headD ' '])))
        else Except.ok (SOut.vector cells)
    else Except.ok (SOut.vector cells)

/-- `[list(i) for i in zip(*var)]`: the transpose truncated to the
shortest row. -/
def pyZipTranspose (rows : List (List (List Char))) : List (List (List Char)) :=
  (List.range ((rows.map List.length).min?.getD 0)).map
    (fun i => rows.map (fun r => r.getD i []))

/-- The transpose step (lines 401-402 / 440-441):
`if transpose and isinstance(var[0], list)`.  `var[0]` raises on an
empty list and on `None`; a vector of strings is left unchanged. -/
def applyTranspose (tr : Bool) : SOut → Except PyErr SOut
  | SOut.pyNone => if tr then Except.error PyErr.typeError else Except.ok SOut.pyNone
  | SOut.table rows =>
    if tr then
      if rows = [] then Except.error PyErr.indexError
      else Except.ok (SOut.table (pyZipTranspose rows))
    else Except.ok (SOut.table rows)
  | SOut.vector cells =>
    if tr then
      if cells = [] then Except.error PyErr.indexError
      else Except.ok (SOut.vector cells)
    else Except.ok (SOut.vector cells)

/-- The list-output post-processing (lines 395-402 and 434-441): fill
replacement, then squeeze, then transpose. -/
def postProcess (args : SArgs) (v : SOut) : Except PyErr SOut := do
  let v1 ← applyFill args.fill args.fill_value v
  let v2 ← applySqueeze (args.squeeze || args.reform) v1
  applyTranspose args.transpose v2

/-- Lines 378-387: split each header line, check it can be indexed,
and run it through `line2var`. -/
def headerLoop (args : SArgs) (sep : Option Char) (iinc : List ℕ) (miinc : ℕ) :
    List (List Char) → Except PyErr (List (List (List Char)))
  | [] => Except.ok []
  | h :: t =>
    let hres := pySplit sep h
    if miinc ≥ hres.length ∧ args.fill = false then
      Except.error (PyErr.valueError ("Line has not enough columns to index: " ++ String.mk h))
    else
      match headerLoop args sep iinc miinc t with
      | Except.error e => Except.error e
      | Except.ok rows => Except.ok (line2var hres iinc args.strip :: rows)

/-- Lines 371-403: the header path.  With no header lines left the
python variable `var` stays `None`. -/
def headerPath (args : SArgs) (st : SSetup) : Except PyErr SOut × Bool :=
  if args.skip - args.hskip > 0 then
    if args.full_header then (postProcess args (SOut.vector st.head), true)
    else
      match headerLoop args st.sep st.iinc st.miinc st.head with
      | Except.error e => (Except.error e, true)
      | Except.ok rows =>
        let v := if args.skip - args.hskip = 1 then SOut.vector (rows.headD [])
                 else SOut.table rows
        (postProcess args v, true)
  else (postProcess args SOut.pyNone, true)

/-- Lines 413-427: the `for line in f` loop of the data path.  A blank
line breaks the loop unless `skip_blank`; comment lines are skipped; a
line too short for the selected indices raises (file closed first)
unless `fill`. -/
def dataLoop (args : SArgs) (sep : Option Char) (iinc : List ℕ) (miinc : ℕ) :
    List (List Char) → List (List (List Char)) → Except PyErr SOut × Bool
  | [], var => (postProcess args (SOut.table var), true)
  | l :: r, var =>
    let s := pyRstrip l
    if s = [] then
      if args.skip_blank then dataLoop args sep iinc miinc r var
      else (postProcess args (SOut.table var), true)
    else if commentHit args.comment s then dataLoop args sep iinc miinc r var
    else
      let res := pySplit sep s
      if miinc ≥ res.length ∧ args.fill = false then
        (Except.error (PyErr.valueError ("Line has not enough columns to index: " ++ String.mk s)), true)
      else dataLoop args sep iinc miinc r (var ++ [line2var res iinc args.strip])

/-- Lines 405-443: the data path — check and convert the first data
line, then loop over the rest of the file. -/
def dataPath (args : SArgs) (st : SSetup) : Except PyErr SOut × Bool :=
  if st.miinc ≥ st.res.length ∧ args.fill = false then
    (Except.error (PyErr.valueError ("Line has not enough columns to index: " ++ String.mk st.s)), true)
  else dataLoop args st.sep st.iinc st.miinc st.rest [line2var st.res st.iinc args.strip]

/-- `sread` from `jams/sread.py` (list output).  Returns the call's
outcome together with a flag telling whether the file handle was
closed by the time the call ended. -/
def sread (args : SArgs) (file : List (List Char)) : Except PyErr SOut × Bool :=
  match sreadSetup args file with
  | (Except.error e, c) => (Except.error e, c)
  | (Except.ok st, _) => if args.header then headerPath args st else dataPath args st

/-- Specification-side description of the data lines the reading loop
processes from the unread rest of the file: rstripped, stopping at the
first blank line unless `skip_blank`, with comment lines left out. -/
def collectLines (skip_blank : Bool) (comment : Option (List Char)) :
    List (List Char) → List (List Char)
  | [] => []
  | l :: r =>
    let s := pyRstrip l
    if s = [] then
      if skip_blank then collectLines skip_blank comment r else []
    else if commentHit comment s then collectLines skip_blank comment r
    else s :: collectLines skip_blank comment r

/-- All data lines a successfully set-up `sread` call processes: the
first data line followed by the collected rest. -/
def dataLines (args : SArgs) (st : SSetup) : List (List Char) :=
  st.s :: collectLines args.skip_blank args.comment st.rest

/-- Writing one table row as a delimited text line. -/
def writeLine (sep : Char) (row : List (List Char)) : List Char :=
  List.intercalate [sep] row

/-- Writing a table to a file as delimited text lines. -/
def writeTable (sep : Char) (table : List (List (List Char))) : List (List Char) :=
  table.map (writeLine sep)

/-- A non-`None` result whose outer list is non-empty (the shape the
data path always produces). -/
def outNonempty : SOut → Prop
  | SOut.table rows => rows ≠ []
  | SOut.vector cells => cells ≠ []
  | SOut.pyNone => False

/-- The `sread` arguments used when reading a written table back:
defaults except for an explicitly given separator. -/
def roundtripArgs (sep : Char) : SArgs :=
  { SArgs.default with separator := some sep }

/-- Specification-side comparison definition for the masked `argsort`
claim, following the spec's words: the index permutation obtained by
sorting "the array obtained from `a` by replacing every masked entry
with `v`". -/
def argsortSpecFilled (a : List (ℚ × Bool)) (v : ℚ) : List ℕ :=
  npArgsort (a.map (fun p => if p.2 then v else p.1))

/-! ## Theorems -/

/-! ### `division`: the zero-guard and the numpy error state -/

/-- The claim "`division(a, b, otherwise=x, prec=p)` returns `x`
exactly where `|b| <= p` and `a/b` where `|b| > p`" is false as
stated: at `a=[1]`, `b=[1]`, `x=5`, `p=-2` the position satisfies
`|b| > p` (so the claim demands `a/b = 1`), yet the code, which
compares against `|p|`, returns `5 = x`. -/
theorem division_prec_sign_counterexample :
    (division ⟨ErrMode.warn, ErrMode.warn, ErrMode.warn, ErrMode.warn⟩
        [1] [1] 5 (-2)).1 = [5]
      ∧ |(1 : ℚ)| > (-2 : ℚ) ∧ (5 : ℚ) ≠ 1 / 1 := by
  refine ⟨?_, by norm_num, by norm_num⟩
  simp only [division, List.zip_cons_cons, List.zip_nil_right, List.map_cons, List.map_nil]
  norm_num

/-- C1 (amended): `division(a, b, otherwise=x, prec=p)` returns `x`
exactly at the element positions where `|b| <= |p|`, and `a/b` at
every position where `|b| > |p|`. -/
theorem division_otherwise_where_abs_prec (st : NpErrState) (a b : List ℚ) (x p : ℚ) :
    (division st a b x p).1 =
      (a.zip b).map (fun q => if |q.2| ≤ |p| then x else q.1 / q.2) := by
  simp only [division]
  refine List.map_congr_left (fun q _ => ?_)
  rcases le_or_lt |q.2| |p| with h | h
  · rw [if_neg (not_lt.mpr h), if_pos h]
  · rw [if_pos h, if_neg (not_le.mpr h)]

/-- C9: `division` is observably stateless: it returns the numpy
floating-point error settings to exactly their value before the call,
and its result depends only on its explicit arguments. -/
theorem division_restores_numpy_err_state (st st' : NpErrState) (a b : List ℚ) (x p : ℚ) :
    (division st a b x p).2 = st
      ∧ (division st a b x p).1 = (division st' a b x p).1 :=
  ⟨rfl, rfl⟩

/-! ### The HDF readers: error translation -/

/-- C7: on a file that cannot be opened as HDF4, `readhdf4` does *not*
raise `IOError('Cannot open file: '+fName)`: the guarding clause
`except HDF4Error:` refers to a name the module never imports, so the
handler itself raises `NameError` and the intended translation never
happens. -/
theorem readhdf4_open_failure_raises_nameerror :
    readhdf4 true (fun _ => none) "missing.hdf4" ""
        false false false false false false
      = Except.error (PyErr.nameError "HDF4Error")
      ∧ (∀ m, PyErr.nameError "HDF4Error" ≠ PyErr.ioError m) :=
  ⟨rfl, fun m h => by cases h⟩

/-- C6: on a readable HDF5 file, asking for a variable that is not in
the file does *not* raise a `ValueError` naming it: the message of
`raise ValueError('variable '+var+' not in file '+fname)` refers to
`fname`, which is not a name in scope (the parameter is `fName`), so
evaluating the message raises `NameError` instead — with and without
`attributes=True`. -/
theorem readhdf5_missing_var_raises_nameerror :
    readhdf5
        (fun n => if n = "test.hdf5" then
          some ⟨[("NB_PARAMETERS", 9)], [("chs", ⟨[[1, 2], [3, 4]], [("Double", 11/10)], true⟩)]⟩
        else none)
        "test.hdf5" "xx" false false false true false false
      = Except.error (PyErr.nameError "fname")
      ∧ readhdf5
        (fun n => if n = "test.hdf5" then
          some ⟨[("NB_PARAMETERS", 9)], [("chs", ⟨[[1, 2], [3, 4]], [("Double", 11/10)], true⟩)]⟩
        else none)
        "test.hdf5" "xx" false false false false false false
      = Except.error (PyErr.nameError "fname")
      ∧ (∀ m, PyErr.nameError "fname" ≠ PyErr.valueError m) :=
  ⟨rfl, rfl, fun m h => by cases h⟩

/-! ### `sread`: the file handle on the no-matching-column path -/

/-- C8: when `cname` matches no header column the selection `iinc` is
empty and line 368's `max(iinc)` raises `ValueError` with the file
handle still open (second component `false`): the handle outlives the
raising call, unlike on every explicit `raise` in `sread`. -/
theorem sread_cname_nomatch_leaves_handle_open :
    sread { SArgs.default with cname := some ["nohead".toList], skip := 1 }
        ["head1 head2".toList, "1 2".toList]
      = (Except.error (PyErr.valueError "max() arg is an empty sequence"), false) := by
  decide

/-! ### `argsort` on masked arrays -/

/-- C4: `argsort(a, fill_value=v)` on a masked array returns the same
index permutation as sorting the array obtained from `a` by replacing
every masked entry with `v`; that permutation is a rearrangement of
the index range of `a` and lists the filled values in ascending
order. -/
theorem argsort_masked_fill_value (a : List (ℚ × Bool)) (v : ℚ) :
    argsort_masked a v = argsortSpecFilled a v
      ∧ (argsort_masked a v).Perm (List.range a.length)
      ∧ List.Pairwise (fun i j => (maFilled a v).getD i 0 ≤ (maFilled a v).getD j 0)
          (argsort_masked a v) := by
  refine ⟨rfl, ?_, ?_⟩
  · have h := List.mergeSort_perm (List.range (maFilled a v).length)
      (fun i j => decide ((maFilled a v).getD i 0 ≤ (maFilled a v).getD j 0))
    simpa [argsort_masked, npmaArgsort, npArgsort, maFilled] using h
  · have h := @List.sorted_mergeSort ℕ
      (fun i j => decide ((maFilled a v).getD i 0 ≤ (maFilled a v).getD j 0))
      (fun x y z hxy hyz => by
        simp only [decide_eq_true_eq] at hxy hyz ⊢
        exact le_trans hxy hyz)
      (fun x y => by
        simp only [Bool.or_eq_true, decide_eq_true_eq]
        exact le_total _ _)
      (List.range (maFilled a v).length)
    have h2 := h.imp (fun hb => of_decide_eq_true hb)
    simpa [argsort_masked, npmaArgsort, npArgsort] using h2

/-! ### `sread`: mutually exclusive column selections -/

/-- The claim "for every call to `sread` on a readable non-empty file
with both `nc != 0` and `cname` given, `sread` raises an error and
returns no data" is false as stated: with `skip_blank=True` and
nothing but blank lines left after the skipped lines, the scan for
the first data line (lines 311-321) spins forever at end of file —
`f.readline()` keeps returning `''`, the blank branch `continue`s —
so the mutual-exclusion check at line 340 is never reached and the
call neither raises nor returns.  Concretely: a readable two-line
file `head` / `` (blank), `nc=2`, `cname=['a']`, `skip=1`,
`skip_blank=True`.  In the model the spin is the `PyErr.hang` marker,
which is not a raised `ValueError`. -/
theorem sread_nc_cname_hang_counterexample :
    sread { SArgs.default with
            nc := Sum.inl 2, cname := some ["a".toList], skip := 1, skip_blank := true }
        ["head".toList, "".toList]
      = (Except.error PyErr.hang, false)
      ∧ (∀ m, PyErr.hang ≠ PyErr.valueError m) :=
  ⟨by decide, fun m h => by cases h⟩

/-- C5 (amended): a call to `sread` that selects columns both by
index (`nc != 0`) and by name (`cname` given) raises
`ValueError('nc and cname are mutually exclusive.')` and returns no
data, whenever the scan for the first data line terminates — always
the case when `skip_blank=False`; with `skip_blank=True` and only
blank lines left the scan spins forever at end of file instead. -/
theorem sread_nc_cname_mutually_exclusive (args : SArgs) (file : List (List Char))
    (h1 : ncNonzero args.nc = true) (h2 : args.cname.isSome = true)
    (h3 : (sreadSetup args file).1 ≠ Except.error PyErr.hang) :
    sread args file
      = (Except.error (PyErr.valueError "nc and cname are mutually exclusive."), true) := by
  have hs : sreadSetup args file
      = (Except.error (PyErr.valueError "nc and cname are mutually exclusive."), true) := by
    cases hfd : firstDataLine args.skip_blank args.comment
        (file.drop (args.hskip + (args.skip - args.hskip))) with
    | none =>
      exfalso
      apply h3
      simp [sreadSetup, hfd]
    | some pr =>
      obtain ⟨s, rest⟩ := pr
      obtain ⟨c, hc⟩ := Option.isSome_iff_exists.mp h2
      simp [sreadSetup, sreadSetupLine, hfd, h1, hc]
  simp only [sread, hs]

/-- Concrete instance of `sread_nc_cname_mutually_exclusive`:
`nc=2` together with `cname=['a']` on a one-line file. -/
theorem sread_nc_cname_mutually_exclusive_witness :
    sread { SArgs.default with nc := Sum.inl 2, cname := some ["a".toList] } ["x".toList]
      = (Except.error (PyErr.valueError "nc and cname are mutually exclusive."), true) :=
  sread_nc_cname_mutually_exclusive _ _ (by decide) (by decide) (by decide)

/-! ### `iargmax` / `iargmin`: first index of the extremum -/

/-- Invariant of the fold inside python's `max(..., key=...)` over an
index-tagged suffix: the result is the accumulator, or the first entry
of the suffix strictly exceeding the accumulator's value and all
entries before it; and it dominates the accumulator and every entry of
the suffix. -/
theorem pyMax_foldl_spec (l : List ℚ) : ∀ (n : ℕ) (a : ℕ × ℚ),
    ((List.enumFrom n l).foldl (fun best p => if p.2 > best.2 then p else best) a = a
      ∨ ∃ i, i < l.length
          ∧ (List.enumFrom n l).foldl (fun best p => if p.2 > best.2 then p else best) a
              = (n + i, l.getD i 0)
          ∧ a.2 < l.getD i 0 ∧ ∀ k, k < i → l.getD k 0 < l.getD i 0)
    ∧ a.2 ≤ ((List.enumFrom n l).foldl (fun best p => if p.2 > best.2 then p else best) a).2
    ∧ ∀ k, k < l.length →
        l.getD k 0 ≤ ((List.enumFrom n l).foldl (fun best p => if p.2 > best.2 then p else best) a).2 := by
  induction l with
  | nil =>
    intro n a
    exact ⟨Or.inl rfl, le_refl _, fun k hk => absurd hk (by simp)⟩
  | cons x t ih =>
    intro n a
    have hstep : List.enumFrom n (x :: t) = (n, x) :: List.enumFrom (n + 1) t := rfl
    rw [hstep, List.foldl_cons]
    by_cases hx : x > a.2
    · rw [if_pos hx]
      obtain ⟨hd, hle, hmax⟩ := ih (n + 1) (n, x)
      refine ⟨?_, le_trans (le_of_lt hx) hle, ?_⟩
      · rcases hd with hr | ⟨i', hi', hr, hlt, hfirst⟩
        · refine Or.inr ⟨0, by simp, by simpa using hr, by simpa using hx,
            fun k hk => absurd hk (Nat.not_lt_zero k)⟩
        · refine Or.inr ⟨i' + 1, by simp only [List.length_cons]; omega, ?_, ?_, ?_⟩
          · rw [hr]
            have hn : n + 1 + i' = n + (i' + 1) := by omega
            simp [hn]
          · have hlt' : x < t.getD i' 0 := hlt
            simpa using lt_trans hx hlt'
          · intro k hk
            cases k with
            | zero => simpa using lt_of_lt_of_le (show x < t.getD i' 0 from hlt) (le_refl _)
            | succ k' =>
              simp only [List.getD_cons_succ]
              exact hfirst k' (by omega)
      · intro k hk
        cases k with
        | zero => simpa using hle
        | succ k' =>
          simp only [List.getD_cons_succ]
          exact hmax k' (by simpa using hk)
    · rw [if_neg hx]
      obtain ⟨hd, hle, hmax⟩ := ih (n + 1) a
      have hxa : x ≤ a.2 := not_lt.mp hx
      refine ⟨?_, hle, ?_⟩
      · rcases hd with hr | ⟨i', hi', hr, hlt, hfirst⟩
        · exact Or.inl hr
        · refine Or.inr ⟨i' + 1, by simp only [List.length_cons]; omega, ?_, ?_, ?_⟩
          · rw [hr]
            have hn : n + 1 + i' = n + (i' + 1) := by omega
            simp [hn]
          · simpa using hlt
          · intro k hk
            cases k with
            | zero => simpa using lt_of_le_of_lt hxa hlt
            | succ k' =>
              simp only [List.getD_cons_succ]
              exact hfirst k' (by omega)
      · intro k hk
        cases k with
        | zero => simpa using le_trans hxa hle
        | succ k' =>
          simp only [List.getD_cons_succ]
          exact hmax k' (by simpa using hk)

/-- Mirror invariant for the fold inside python's `min(..., key=...)`. -/
theorem pyMin_foldl_spec (l : List ℚ) : ∀ (n : ℕ) (a : ℕ × ℚ),
    ((List.enumFrom n l).foldl (fun best p => if p.2 < best.2 then p else best) a = a
      ∨ ∃ i, i < l.length
          ∧ (List.enumFrom n l).foldl (fun best p => if p.2 < best.2 then p else best) a
              = (n + i, l.getD i 0)
          ∧ l.getD i 0 < a.2 ∧ ∀ k, k < i → l.getD i 0 < l.getD k 0)
    ∧ ((List.enumFrom n l).foldl (fun best p => if p.2 < best.2 then p else best) a).2 ≤ a.2
    ∧ ∀ k, k < l.length →
        ((List.enumFrom n l).foldl (fun best p => if p.2 < best.2 then p else best) a).2 ≤ l.getD k 0 := by
  induction l with
  | nil =>
    intro n a
    exact ⟨Or.inl rfl, le_refl _, fun k hk => absurd hk (by simp)⟩
  | cons x t ih =>
    intro n a
    have hstep : List.enumFrom n (x :: t) = (n, x) :: List.enumFrom (n + 1) t := rfl
    rw [hstep, List.foldl_cons]
    by_cases hx : x < a.2
    · rw [if_pos hx]
      obtain ⟨hd, hle, hmin⟩ := ih (n + 1) (n, x)
      refine ⟨?_, le_trans hle (le_of_lt hx), ?_⟩
      · rcases hd with hr | ⟨i', hi', hr, hlt, hfirst⟩
        · refine Or.inr ⟨0, by simp, by simpa using hr, by simpa using hx,
            fun k hk => absurd hk (Nat.not_lt_zero k)⟩
        · refine Or.inr ⟨i' + 1, by simp only [List.length_cons]; omega, ?_, ?_, ?_⟩
          · rw [hr]
            have hn : n + 1 + i' = n + (i' + 1) := by omega
            simp [hn]
          · have hlt' : t.getD i' 0 < x := hlt
            simpa using lt_trans hlt' hx
          · intro k hk
            cases k with
            | zero => simpa using (show t.getD i' 0 < x from hlt)
            | succ k' =>
              simp only [List.getD_cons_succ]
              exact hfirst k' (by omega)
      · intro k hk
        cases k with
        | zero => simpa using hle
        | succ k' =>
          simp only [List.getD_cons_succ]
          exact hmin k' (by simpa using hk)
    · rw [if_neg hx]
      obtain ⟨hd, hle, hmin⟩ := ih (n + 1) a
      have hxa : a.2 ≤ x := not_lt.mp hx
      refine ⟨?_, hle, ?_⟩
      · rcases hd with hr | ⟨i', hi', hr, hlt, hfirst⟩
        · exact Or.inl hr
        · refine Or.inr ⟨i' + 1, by simp only [List.length_cons]; omega, ?_, ?_, ?_⟩
          · rw [hr]
            have hn : n + 1 + i' = n + (i' + 1) := by omega
            simp [hn]
          · simpa using hlt
          · intro k hk
            cases k with
            | zero => simpa using lt_of_lt_of_le hlt hxa
            | succ k' =>
              simp only [List.getD_cons_succ]
              exact hfirst k' (by omega)
      · intro k hk
        cases k with
        | zero => simpa using le_trans hle hxa
        | succ k' =>
          simp only [List.getD_cons_succ]
          exact hmin k' (by simpa using hk)

/-- C10: on a non-empty plain python iterable, `argmax` returns the
smallest index at which the maximum occurs and `argmin` the smallest
index at which the minimum occurs. -/
theorem iarg_extrema_first_index (l : List ℚ) (h : l ≠ []) :
    ∃ i j, argmax_iterable l = some i ∧ argmin_iterable l = some j
      ∧ i < l.length ∧ j < l.length
      ∧ (∀ k, k < l.length → l.getD k 0 ≤ l.getD i 0)
      ∧ (∀ k, k < l.length → l.getD k 0 = l.getD i 0 → i ≤ k)
      ∧ (∀ k, k < l.length → l.getD j 0 ≤ l.getD k 0)
      ∧ (∀ k, k < l.length → l.getD k 0 = l.getD j 0 → j ≤ k) := by
  match l, h with
  | x :: t, _ =>
    have henum : (x :: t).enum = (0, x) :: List.enumFrom 1 t := rfl
    obtain ⟨hdM, hleM, hmaxM⟩ := pyMax_foldl_spec t 1 (0, x)
    obtain ⟨hdm, hlem, hminm⟩ := pyMin_foldl_spec t 1 (0, x)
    have hargmax : argmax_iterable (x :: t)
        = some ((List.enumFrom 1 t).foldl (fun best p => if p.2 > best.2 then p else best) (0, x)).1 := by
      simp [argmax_iterable, iargmax, pyMaxBySnd, henum]
    have hargmin : argmin_iterable (x :: t)
        = some ((List.enumFrom 1 t).foldl (fun best p => if p.2 < best.2 then p else best) (0, x)).1 := by
      simp [argmin_iterable, iargmin, pyMinBySnd, henum]
    have hgetd : ∀ i', (x :: t).getD (1 + i') 0 = t.getD i' 0 := by
      intro i'
      rw [Nat.add_comm]
      simp
    have hi : ∃ i, argmax_iterable (x :: t) = some i ∧ i < (x :: t).length
        ∧ (∀ k, k < (x :: t).length → (x :: t).getD k 0 ≤ (x :: t).getD i 0)
        ∧ (∀ k, k < (x :: t).length → (x :: t).getD k 0 = (x :: t).getD i 0 → i ≤ k) := by
      rcases hdM with hr | ⟨i', hi', hr, hlt, hfirst⟩
      · refine ⟨0, by rw [hargmax, hr], by simp, ?_, ?_⟩
        · intro k hk
          cases k with
          | zero => simp
          | succ k' =>
            have h2 := hmaxM k' (by simpa using hk)
            rw [hr] at h2
            simpa using h2
        · intro k _ _
          exact Nat.zero_le k
      · have hlt' : x < t.getD i' 0 := hlt
        refine ⟨1 + i', by rw [hargmax, hr], by simp only [List.length_cons]; omega, ?_, ?_⟩
        · intro k hk
          rw [hgetd i']
          cases k with
          | zero => simpa using le_of_lt hlt'
          | succ k' =>
            have h2 := hmaxM k' (by simpa using hk)
            rw [hr] at h2
            simpa using h2
        · intro k hk hkeq
          rw [hgetd i'] at hkeq
          by_contra hcon
          cases k with
          | zero =>
            simp only [List.getD_cons_zero] at hkeq
            exact absurd hkeq (ne_of_lt hlt')
          | succ k' =>
            simp only [List.getD_cons_succ] at hkeq
            exact absurd hkeq (ne_of_lt (hfirst k' (by omega)))
    have hj : ∃ j, argmin_iterable (x :: t) = some j ∧ j < (x :: t).length
        ∧ (∀ k, k < (x :: t).length → (x :: t).getD j 0 ≤ (x :: t).getD k 0)
        ∧ (∀ k, k < (x :: t).length → (x :: t).getD k 0 = (x :: t).getD j 0 → j ≤ k) := by
      rcases hdm with hr | ⟨i', hi', hr, hlt, hfirst⟩
      · refine ⟨0, by rw [hargmin, hr], by simp, ?_, ?_⟩
        · intro k hk
          cases k with
          | zero => simp
          | succ k' =>
            have h2 := hminm k' (by simpa using hk)
            rw [hr] at h2
            simpa using h2
        · intro k _ _
          exact Nat.zero_le k
      · have hlt' : t.getD i' 0 < x := hlt
        refine ⟨1 + i', by rw [hargmin, hr], by simp only [List.length_cons]; omega, ?_, ?_⟩
        · intro k hk
          rw [hgetd i']
          cases k with
          | zero => simpa using le_of_lt hlt'
          | succ k' =>
            have h2 := hminm k' (by simpa using hk)
            rw [hr] at h2
            simpa using h2
        · intro k hk hkeq
          rw [hgetd i'] at hkeq
          by_contra hcon
          cases k with
          | zero =>
            simp only [List.getD_cons_zero] at hkeq
            exact absurd hkeq.symm (ne_of_lt hlt')
          | succ k' =>
            simp only [List.getD_cons_succ] at hkeq
            exact absurd hkeq.symm (ne_of_lt (hfirst k' (by omega)))
    obtain ⟨i, h1, h2, h3, h4⟩ := hi
    obtain ⟨j, g1, g2, g3, g4⟩ := hj
    exact ⟨i, j, h1, g1, h2, g2, h3, h4, g3, g4⟩

/-- Concrete instance of `iarg_extrema_first_index` on `[1,3,0,3,0]`. -/
theorem iarg_extrema_first_index_witness :
    ∃ i j, argmax_iterable [(1 : ℚ), 3, 0, 3, 0] = some i
      ∧ argmin_iterable [(1 : ℚ), 3, 0, 3, 0] = some j
      ∧ i < ([(1 : ℚ), 3, 0, 3, 0] : List ℚ).length
      ∧ j < ([(1 : ℚ), 3, 0, 3, 0] : List ℚ).length
      ∧ (∀ k, k < ([(1 : ℚ), 3, 0, 3, 0] : List ℚ).length →
          [(1 : ℚ), 3, 0, 3, 0].getD k 0 ≤ [(1 : ℚ), 3, 0, 3, 0].getD i 0)
      ∧ (∀ k, k < ([(1 : ℚ), 3, 0, 3, 0] : List ℚ).length →
          [(1 : ℚ), 3, 0, 3, 0].getD k 0 = [(1 : ℚ), 3, 0, 3, 0].getD i 0 → i ≤ k)
      ∧ (∀ k, k < ([(1 : ℚ), 3, 0, 3, 0] : List ℚ).length →
          [(1 : ℚ), 3, 0, 3, 0].getD j 0 ≤ [(1 : ℚ), 3, 0, 3, 0].getD k 0)
      ∧ (∀ k, k < ([(1 : ℚ), 3, 0, 3, 0] : List ℚ).length →
          [(1 : ℚ), 3, 0, 3, 0].getD k 0 = [(1 : ℚ), 3, 0, 3, 0].getD j 0 → j ≤ k) :=
  iarg_extrema_first_index [(1 : ℚ), 3, 0, 3, 0] (by decide)

/-! ### `sread`: inversion of the set-up phase and loop invariants -/

/-- The split returned by the sniffing step is the split of the line
by the separator it returns. -/
theorem sniffSep_snd (separator : Option Char) (s : List Char) :
    (sniffSep separator s).2 = pySplit (sniffSep separator s).1 s := by
  cases separator with
  | some c => rfl
  | none =>
    simp only [sniffSep]
    split
    · split
      · rfl
      · rfl
    · rfl

/-- Inversion of `mkSetup`: on success every field comes through
unchanged and `miinc` is the maximum of a non-empty `iinc`. -/
theorem mkSetup_ok_fields {head : List (List Char)} {s : List Char} {res : List (List Char)}
    {rest : List (List Char)} {sep : Option Char} {iinc : List ℕ} {st : SSetup} {b : Bool}
    (h : mkSetup head s res rest sep iinc = (Except.ok st, b)) :
    st.head = head ∧ st.s = s ∧ st.res = res ∧ st.rest = rest ∧ st.sep = sep
      ∧ st.iinc = iinc ∧ iinc.max? = some st.miinc ∧ b = false := by
  unfold mkSetup at h
  cases hm : iinc.max? with
  | none => rw [hm] at h; exact absurd h (by simp)
  | some m =>
    rw [hm] at h
    simp only [Prod.mk.injEq] at h
    obtain ⟨he, hb⟩ := h
    injection he with he
    subst he
    exact ⟨rfl, rfl, rfl, rfl, rfl, rfl, rfl, hb.symm⟩

/-- Inversion of the per-line set-up step: on success the first data
line, the rest of the file, the stored split and the maximum of the
selection are consistent. -/
theorem sreadSetupLine_ok {args : SArgs} {head : List (List Char)} {s : List Char}
    {rest : List (List Char)} {st : SSetup} {b : Bool}
    (h : sreadSetupLine args head s rest = (Except.ok st, b)) :
    st.s = s ∧ st.rest = rest ∧ st.res = pySplit st.sep st.s
      ∧ st.iinc.max? = some st.miinc ∧ b = false := by
  have hsn := sniffSep_snd args.separator s
  have step : ∀ {iinc : List ℕ},
      mkSetup head s (sniffSep args.separator s).2 rest (sniffSep args.separator s).1 iinc
        = (Except.ok st, b) →
      st.s = s ∧ st.rest = rest ∧ st.res = pySplit st.sep st.s
        ∧ st.iinc.max? = some st.miinc ∧ b = false := by
    intro iinc hm
    obtain ⟨h1, h2, h3, h4, h5, h6, h7, h8⟩ := mkSetup_ok_fields hm
    refine ⟨h2, h4, ?_, ?_, h8⟩
    · rw [h3, hsn, h5, h2]
    · rw [h6]; exact h7
  simp only [sreadSetupLine] at h
  split at h
  · exact absurd h (by simp)
  · split at h
    · split at h
      · exact absurd h (by simp)
      · exact step h
    · split at h
      · exact step h
      · split at h
        · exact step h
        · exact step h

/-- Inversion of the whole set-up phase. -/
theorem sreadSetup_ok {args : SArgs} {file : List (List Char)} {st : SSetup} {b : Bool}
    (h : sreadSetup args file = (Except.ok st, b)) :
    st.res = pySplit st.sep st.s ∧ st.iinc.max? = some st.miinc ∧ b = false := by
  simp only [sreadSetup] at h
  split at h
  · exact absurd h (by simp)
  · obtain ⟨_, _, h3, h4, h5⟩ := sreadSetupLine_ok h
    exact ⟨h3, h4, h5⟩

/-- A list with a maximum is non-empty. -/
theorem max?_some_ne_nil {l : List ℕ} {m : ℕ} (h : l.max? = some m) : l ≠ [] := by
  intro hnil
  subst hnil
  simp [List.max?] at h

/-- `line2var` always returns one cell per selected index. -/
theorem line2var_length (res : List (List Char)) (iinc : List ℕ)
    (strip : Option (List Char)) : (line2var res iinc strip).length = iinc.length := by
  have hsplit : ∀ (l : List ℕ) (p : ℕ → Bool),
      (l.filter p).length + (l.filter (fun i => !(p i))).length = l.length := by
    intro l p
    induction l with
    | nil => simp
    | cons a t iht =>
      by_cases hp : p a = true
      · simp [List.filter_cons, hp]
        omega
      · have hp' : p a = false := Bool.not_eq_true _ ▸ hp
        simp [List.filter_cons, hp']
        omega
  simp only [line2var, List.length_append, List.length_map, List.length_replicate, decide_not]
  exact hsplit iinc (fun i => decide (i < res.length))

/-- With `fill=False`, a processed data line too short for the largest
selected index makes the reading loop raise `ValueError` (with the
file closed). -/
theorem dataLoop_short_err {args : SArgs} {sep : Option Char} {iinc : List ℕ} {miinc : ℕ}
    (hf : args.fill = false) :
    ∀ (rest : List (List Char)) (var : List (List (List Char))),
      (∃ l ∈ collectLines args.skip_blank args.comment rest, (pySplit sep l).length ≤ miinc) →
      ∃ msg, dataLoop args sep iinc miinc rest var
        = (Except.error (PyErr.valueError msg), true) := by
  intro rest
  induction rest with
  | nil =>
    intro var h
    obtain ⟨l, hl, _⟩ := h
    simp [collectLines] at hl
  | cons x r ih =>
    intro var h
    obtain ⟨l, hl, hshort⟩ := h
    by_cases hb : pyRstrip x = []
    · by_cases hsb : args.skip_blank = true
      · have hred : dataLoop args sep iinc miinc (x :: r) var
            = dataLoop args sep iinc miinc r var := by
          simp [dataLoop, hb, hsb]
        rw [hred]
        refine ih var ⟨l, ?_, hshort⟩
        simpa [collectLines, hb, hsb] using hl
      · exfalso
        have hsb' : args.skip_blank = false := Bool.not_eq_true _ ▸ hsb
        have : collectLines args.skip_blank args.comment (x :: r) = [] := by
          simp [collectLines, hb, hsb']
        rw [this] at hl
        simp at hl
    · by_cases hc : commentHit args.comment (pyRstrip x) = true
      · have hred : dataLoop args sep iinc miinc (x :: r) var
            = dataLoop args sep iinc miinc r var := by
          simp [dataLoop, hb, hc]
        rw [hred]
        refine ih var ⟨l, ?_, hshort⟩
        simpa [collectLines, hb, hc] using hl
      · by_cases hcur : miinc ≥ (pySplit sep (pyRstrip x)).length
        · exact ⟨"Line has not enough columns to index: " ++ String.mk (pyRstrip x),
            by simp [dataLoop, hb, hc, hcur, hf]⟩
        · have hmem : l = pyRstrip x ∨ l ∈ collectLines args.skip_blank args.comment r := by
            simpa [collectLines, hb, hc] using hl
          have hl' : l ∈ collectLines args.skip_blank args.comment r := by
            rcases hmem with rfl | h2
            · exact absurd hshort hcur
            · exact h2
          have hred : dataLoop args sep iinc miinc (x :: r) var
              = dataLoop args sep iinc miinc r
                  (var ++ [line2var (pySplit sep (pyRstrip x)) iinc args.strip]) := by
            simp [dataLoop, hb, hc, hcur, hf]
          rw [hred]
          exact ih _ ⟨l, hl', hshort⟩

/-- With `fill=True` the reading loop never raises: it converts every
collected data line and hands the table to the post-processing. -/
theorem dataLoop_fill_ok {args : SArgs} {sep : Option Char} {iinc : List ℕ} {miinc : ℕ}
    (hf : args.fill = true) :
    ∀ (rest : List (List Char)) (var : List (List (List Char))),
      dataLoop args sep iinc miinc rest var
        = (postProcess args (SOut.table (var ++
            (collectLines args.skip_blank args.comment rest).map
              (fun l => line2var (pySplit sep l) iinc args.strip))), true) := by
  intro rest
  induction rest with
  | nil => intro var; simp [dataLoop, collectLines]
  | cons x r ih =>
    intro var
    by_cases hb : pyRstrip x = []
    · by_cases hsb : args.skip_blank = true
      · simp [dataLoop, collectLines, hb, hsb, ih]
      · have hsb' : args.skip_blank = false := Bool.not_eq_true _ ▸ hsb
        simp [dataLoop, collectLines, hb, hsb']
    · by_cases hc : commentHit args.comment (pyRstrip x) = true
      · simp [dataLoop, collectLines, hb, hc, ih]
      · have hcond : ¬(miinc ≥ (pySplit sep (pyRstrip x)).length ∧ args.fill = false) := by
          simp [hf]
        simp [dataLoop, collectLines, hb, hc, hcond, ih, List.append_assoc]

/-- Binding a successful `Except` computation just applies the
continuation. -/
theorem except_ok_bind {ε α β : Type} (a : α) (f : α → Except ε β) :
    ((Except.ok a : Except ε α) >>= f) = f a := rfl

/-- The squeeze step succeeds on a non-empty table of non-empty rows,
and its result is again non-empty. -/
theorem applySqueeze_table_ok (sq : Bool) {rows : List (List (List Char))}
    (h0 : rows ≠ []) (h1 : ∀ r ∈ rows, r ≠ []) :
    ∃ v, applySqueeze sq (SOut.table rows) = Except.ok v ∧ outNonempty v := by
  by_cases hsq : sq = true
  · by_cases hm : (rows.map List.length).foldr Nat.max 0 = 1
    · have hany : rows.any (fun r => r = []) = false := by
        rw [List.any_eq_false]
        intro r hr
        simpa using h1 r hr
      refine ⟨SOut.vector (rows.map (fun r => r.headD [])), ?_, ?_⟩
      · simp [applySqueeze, hsq, h0, hm, hany]
      · simpa [outNonempty] using h0
    · exact ⟨SOut.table rows, by simp [applySqueeze, hsq, h0, hm], h0⟩
  · have hsq' : sq = false := Bool.not_eq_true _ ▸ hsq
    exact ⟨SOut.table rows, by simp [applySqueeze, hsq'], h0⟩

/-- The transpose step succeeds on any non-empty table or vector. -/
theorem applyTranspose_ok (tr : Bool) {v : SOut} (h : outNonempty v) :
    ∃ w, applyTranspose tr v = Except.ok w := by
  cases v with
  | pyNone => exact absurd h (by simp [outNonempty])
  | table rows =>
    have h' : rows ≠ [] := h
    by_cases htr : tr = true
    · exact ⟨SOut.table (pyZipTranspose rows), by simp [applyTranspose, htr, h']⟩
    · have htr' : tr = false := Bool.not_eq_true _ ▸ htr
      exact ⟨SOut.table rows, by simp [applyTranspose, htr']⟩
  | vector cells =>
    have h' : cells ≠ [] := h
    by_cases htr : tr = true
    · exact ⟨SOut.vector cells, by simp [applyTranspose, htr, h']⟩
    · have htr' : tr = false := Bool.not_eq_true _ ▸ htr
      exact ⟨SOut.vector cells, by simp [applyTranspose, htr']⟩

/-- The whole post-processing succeeds on a non-empty table of
non-empty rows. -/
theorem postProcess_table_ok (args : SArgs) {rows : List (List (List Char))}
    (h0 : rows ≠ []) (h1 : ∀ r ∈ rows, r ≠ []) :
    ∃ out, postProcess args (SOut.table rows) = Except.ok out := by
  by_cases hf : args.fill = true
  · have hfill : applyFill args.fill args.fill_value (SOut.table rows)
        = Except.ok (SOut.table (rows.map
            (fun r => r.map (fun c => if c = [] then args.fill_value else c)))) := by
      rw [hf]
      rfl
    have h0' : rows.map (fun r => r.map (fun c => if c = [] then args.fill_value else c)) ≠ [] := by
      simpa using h0
    have h1' : ∀ r ∈ rows.map (fun r => r.map (fun c => if c = [] then args.fill_value else c)),
        r ≠ [] := by
      intro r hr
      obtain ⟨r0, hr0, rfl⟩ := List.mem_map.mp hr
      simpa using h1 r0 hr0
    obtain ⟨v2, hv2, hv2ne⟩ := applySqueeze_table_ok (args.squeeze || args.reform) h0' h1'
    obtain ⟨w, hw⟩ := applyTranspose_ok args.transpose hv2ne
    refine ⟨w, ?_⟩
    unfold postProcess
    rw [hfill, except_ok_bind, hv2, except_ok_bind, hw]
  · have hf' : args.fill = false := Bool.not_eq_true _ ▸ hf
    have hfill : applyFill args.fill args.fill_value (SOut.table rows)
        = Except.ok (SOut.table rows) := by
      rw [hf']
      rfl
    obtain ⟨v2, hv2, hv2ne⟩ := applySqueeze_table_ok (args.squeeze || args.reform) h0 h1
    obtain ⟨w, hw⟩ := applyTranspose_ok args.transpose hv2ne
    refine ⟨w, ?_⟩
    unfold postProcess
    rw [hfill, except_ok_bind, hv2, except_ok_bind, hw]

/-- C2: for a call of `sread` that passes its set-up phase (with
`header=False`), (a) with `fill=False`, if any processed data line,
once split by the separator, has at most `miinc = max(iinc)` columns —
too few to index the largest selected column index — the call raises a
`ValueError` (file closed); (b) with `fill=True` the call succeeds,
and (in the plain row-major layout) every selected cell beyond a
line's width comes back as `fill_value` — the output rows are exactly
`line2var`'s padded rows with every empty cell replaced by
`fill_value`. -/
theorem sread_fill_contract (args : SArgs) (file : List (List Char)) (st : SSetup)
    (hh : args.header = false)
    (hsetup : sreadSetup args file = (Except.ok st, false)) :
    (args.fill = false →
      (∃ l ∈ dataLines args st, (pySplit st.sep l).length ≤ st.miinc) →
      ∃ msg, sread args file = (Except.error (PyErr.valueError msg), true))
    ∧ (args.fill = true →
      (∃ out, sread args file = (Except.ok out, true))
      ∧ (args.squeeze = false → args.reform = false → args.transpose = false →
        sread args file = (Except.ok (SOut.table ((dataLines args st).map
          (fun l => (line2var (pySplit st.sep l) st.iinc args.strip).map
            (fun c => if c = [] then args.fill_value else c)))), true))) := by
  obtain ⟨hres, hmax, _⟩ := sreadSetup_ok hsetup
  have hsr : sread args file = dataPath args st := by
    simp [sread, hsetup, hh]
  constructor
  · intro hf hex
    obtain ⟨l, hl, hshort⟩ := hex
    rw [hsr]
    unfold dataPath
    by_cases hcur : st.miinc ≥ st.res.length
    · exact ⟨"Line has not enough columns to index: " ++ String.mk st.s,
        by rw [if_pos ⟨hcur, hf⟩]⟩
    · rw [if_neg (fun hco => hcur hco.1)]
      rcases List.mem_cons.mp hl with rfl | hl'
      · exfalso
        apply hcur
        rw [hres]
        exact hshort
      · exact dataLoop_short_err hf st.rest _ ⟨l, hl', hshort⟩
  · intro hf
    have hnofalse : ¬(st.miinc ≥ st.res.length ∧ args.fill = false) := by simp [hf]
    have hdp : dataPath args st
        = (postProcess args (SOut.table ((dataLines args st).map
            (fun l => line2var (pySplit st.sep l) st.iinc args.strip))), true) := by
      unfold dataPath
      rw [if_neg hnofalse, dataLoop_fill_ok hf]
      simp [dataLines, hres]
    have hiinc_ne : st.iinc ≠ [] := max?_some_ne_nil hmax
    have h0 : (dataLines args st).map
        (fun l => line2var (pySplit st.sep l) st.iinc args.strip) ≠ [] := by
      simp [dataLines]
    have h1 : ∀ r ∈ (dataLines args st).map
        (fun l => line2var (pySplit st.sep l) st.iinc args.strip), r ≠ [] := by
      intro r hr
      obtain ⟨l0, _, rfl⟩ := List.mem_map.mp hr
      intro hnil
      have hlen := line2var_length (pySplit st.sep l0) st.iinc args.strip
      rw [hnil] at hlen
      exact hiinc_ne (List.length_eq_zero.mp hlen.symm)
    constructor
    · obtain ⟨out, hout⟩ := postProcess_table_ok args h0 h1
      exact ⟨out, by rw [hsr, hdp, hout]⟩
    · intro hsq hrf htr
      rw [hsr, hdp]
      have hfill : applyFill args.fill args.fill_value (SOut.table ((dataLines args st).map
          (fun l => line2var (pySplit st.sep l) st.iinc args.strip)))
          = Except.ok (SOut.table (((dataLines args st).map
              (fun l => line2var (pySplit st.sep l) st.iinc args.strip)).map
                (fun r => r.map (fun c => if c = [] then args.fill_value else c)))) := by
        rw [hf]
        rfl
      have hsq2 : (args.squeeze || args.reform) = false := by rw [hsq, hrf]; rfl
      have hpost : postProcess args (SOut.table ((dataLines args st).map
          (fun l => line2var (pySplit st.sep l) st.iinc args.strip)))
          = Except.ok (SOut.table (((dataLines args st).map
              (fun l => line2var (pySplit st.sep l) st.iinc args.strip)).map
                (fun r => r.map (fun c => if c = [] then args.fill_value else c)))) := by
        unfold postProcess
        rw [hfill, except_ok_bind, hsq2]
        rw [show ∀ rows, applySqueeze false (SOut.table rows) = Except.ok (SOut.table rows)
          from fun rows => rfl]
        rw [except_ok_bind, htr]
        rw [show ∀ rows, applyTranspose false (SOut.table rows) = Except.ok (SOut.table rows)
          from fun rows => rfl]
      rw [hpost]
      simp [List.map_map, Function.comp]

/-- Concrete instance of `sread_fill_contract`: reading the two lines
`1 2 3` and `4 5` — with `fill=False` the second line raises, with
`fill=True` and `fill_value='-1'` the missing third cell comes back as
`-1`. -/
theorem sread_fill_contract_witness :
    (∃ msg, sread { SArgs.default with fill := false } ["1 2 3".toList, "4 5".toList]
      = (Except.error (PyErr.valueError msg), true))
    ∧ sread { SArgs.default with fill := true, fill_value := "-1".toList }
        ["1 2 3".toList, "4 5".toList]
      = (Except.ok (SOut.table [[['1'], ['2'], ['3']], [['4'], ['5'], ['-', '1']]]), true) := by
  constructor
  · exact (sread_fill_contract { SArgs.default with fill := false } ["1 2 3".toList, "4 5".toList]
      ⟨[], "1 2 3".toList, ["1".toList, "2".toList, "3".toList], ["4 5".toList], none, [0, 1, 2], 2⟩
      rfl (by decide)).1 rfl (by decide)
  · have h := ((sread_fill_contract
      { SArgs.default with fill := true, fill_value := "-1".toList } ["1 2 3".toList, "4 5".toList]
      ⟨[], "1 2 3".toList, ["1".toList, "2".toList, "3".toList], ["4 5".toList], none, [0, 1, 2], 2⟩
      rfl (by decide)).2 rfl).2 rfl rfl rfl
    rw [h]
    decide

/-! ### `sread`: the read–write round trip -/

/-- Splitting a written line by its separator recovers the row's
cells, provided no cell contains the separator. -/
theorem pySplit_writeLine {sep : Char} {row : List (List Char)}
    (hcell : ∀ c ∈ row, sep ∉ c) (hne : row ≠ []) :
    pySplit (some sep) (writeLine sep row) = row := by
  simpa [pySplit, writeLine] using List.splitOn_intercalate row sep hcell hne

/-- Reading a list back through its own index range is the identity
(composed with `f`). -/
theorem map_getD_range (l : List (List Char)) (f : List Char → List Char) :
    (List.range l.length).map (fun i => f (l.getD i [])) = l.map f := by
  induction l with
  | nil => simp
  | cons x t ih =>
    rw [List.length_cons, List.range_succ_eq_map, List.map_cons, List.map_map]
    simp only [List.getD_cons_zero, List.map_cons]
    congr 1

/-- When the whole index range of a line is selected, `line2var`
strips every cell and pads nothing. -/
theorem line2var_full (res : List (List Char)) (strip : Option (List Char)) :
    line2var res (List.range res.length) strip = res.map (stripFun strip) := by
  simp only [line2var]
  have hfilt1 : (List.range res.length).filter (fun i => i < res.length)
      = List.range res.length := by
    apply List.filter_eq_self.mpr
    intro a ha
    simp only [decide_eq_true_eq]
    exact List.mem_range.mp ha
  have hfilt2 : (List.range res.length).filter (fun i => ¬ i < res.length) = [] := by
    apply List.filter_eq_nil_iff.mpr
    intro a ha
    simp only [decide_eq_true_eq, not_not]
    exact List.mem_range.mp ha
  rw [hfilt1, hfilt2]
  simp only [List.length_nil, List.replicate, List.append_nil]
  exact map_getD_range res (stripFun strip)

/-- A non-trivial index range has a maximum, below its bound. -/
theorem range_max?_lt {w : ℕ} (hw : 0 < w) :
    ∃ m, (List.range w).max? = some m ∧ m < w := by
  cases hm : (List.range w).max? with
  | none =>
    exfalso
    have : (List.range w : List ℕ) = [] := by
      cases hr : (List.range w : List ℕ) with
      | nil => rfl
      | cons a t => rw [hr] at hm; simp [List.max?] at hm
    have := congrArg List.length this
    simp at this
    omega
  | some m =>
    refine ⟨m, rfl, ?_⟩
    have hmem : m ∈ List.range w := List.max?_mem (fun a b => max_choice a b) hm
    exact List.mem_range.mp hmem

/-- With all post-processing options off, the post-processing is the
identity. -/
theorem postProcess_id {args : SArgs} (hf : args.fill = false) (hs : args.squeeze = false)
    (hr : args.reform = false) (ht : args.transpose = false) (v : SOut) :
    postProcess args v = Except.ok v := by
  have h1 : applyFill args.fill args.fill_value v = Except.ok v := by
    rw [hf]; cases v <;> rfl
  have h2 : applySqueeze (args.squeeze || args.reform) v = Except.ok v := by
    rw [hs, hr]; cases v <;> rfl
  have h3 : applyTranspose args.transpose v = Except.ok v := by
    rw [ht]; cases v <;> rfl
  unfold postProcess
  rw [h1, except_ok_bind, h2, except_ok_bind, h3]

/-- The reading loop over a written table converts every line back to
its row of cells (stripped), when the rows are `w` wide, no cell
contains the separator, and every written line is non-blank and free
of trailing whitespace. -/
theorem dataLoop_roundtrip (sep : Char) (w m : ℕ) (hm : m < w) :
    ∀ (ts : List (List (List Char))) (var : List (List (List Char))),
      (∀ row ∈ ts, row.length = w) →
      (∀ row ∈ ts, ∀ c ∈ row, sep ∉ c) →
      (∀ row ∈ ts, writeLine sep row ≠ [] ∧ pyRstrip (writeLine sep row) = writeLine sep row) →
      dataLoop (roundtripArgs sep) (some sep) (List.range w) m (writeTable sep ts) var
        = (postProcess (roundtripArgs sep)
            (SOut.table (var ++ ts.map (fun row => row.map (stripFun none)))), true) := by
  intro ts
  induction ts with
  | nil =>
    intro var _ _ _
    simp [writeTable, dataLoop]
  | cons row ts ih =>
    intro var hlen hcell hline
    obtain ⟨hne, hrs⟩ := hline row (List.mem_cons_self row ts)
    have hrow_ne : row ≠ [] := by
      intro hr
      have := hlen row (List.mem_cons_self row ts)
      rw [hr] at this
      simp at this
      omega
    have hsplit : pySplit (some sep) (writeLine sep row) = row :=
      pySplit_writeLine (hcell row (List.mem_cons_self row ts)) hrow_ne
    have hw : row.length = w := hlen row (List.mem_cons_self row ts)
    have hcond : ¬(m ≥ (pySplit (some sep) (pyRstrip (writeLine sep row))).length
        ∧ (roundtripArgs sep).fill = false) := by
      intro hco
      rw [hrs, hsplit, hw] at hco
      omega
    have hlv : line2var (pySplit (some sep) (pyRstrip (writeLine sep row)))
        (List.range w) (roundtripArgs sep).strip = row.map (stripFun none) := by
      rw [hrs, hsplit, ← hw]
      exact line2var_full row none
    rw [show writeTable sep (row :: ts) = writeLine sep row :: writeTable sep ts from rfl]
    rw [show dataLoop (roundtripArgs sep) (some sep) (List.range w) m
          (writeLine sep row :: writeTable sep ts) var
        = dataLoop (roundtripArgs sep) (some sep) (List.range w) m (writeTable sep ts)
            (var ++ [line2var (pySplit (some sep) (pyRstrip (writeLine sep row)))
              (List.range w) (roundtripArgs sep).strip]) from by
      simp only [dataLoop]
      rw [if_neg (by rw [hrs]; exact hne), if_neg (by simp [roundtripArgs, SArgs.default, commentHit]),
        if_neg hcond]]
    rw [hlv, ih (var ++ [row.map (stripFun none)])
      (fun r hr => hlen r (List.mem_cons_of_mem _ hr))
      (fun r hr => hcell r (List.mem_cons_of_mem _ hr))
      (fun r hr => hline r (List.mem_cons_of_mem _ hr))]
    simp [List.append_assoc]

/-- C3: a table written as delimited text lines and read back with
`sread` (given the same separator, default options otherwise) returns
exactly the original cells, except that each cell is passed through
the default stripping, which removes leading and trailing double and
then single quotes.  Hypotheses: the table is non-empty and
rectangular of positive width, no cell contains the separator, and
each written line is non-blank and has no trailing whitespace. -/
theorem sread_roundtrip_strips_quotes (sep : Char) (w : ℕ) (hw : 0 < w)
    (table : List (List (List Char))) (hne : table ≠ [])
    (hlen : ∀ row ∈ table, row.length = w)
    (hcell : ∀ row ∈ table, ∀ c ∈ row, sep ∉ c)
    (hline : ∀ row ∈ table, writeLine sep row ≠ [] ∧
      pyRstrip (writeLine sep row) = writeLine sep row) :
    sread (roundtripArgs sep) (writeTable sep table)
      = (Except.ok (SOut.table (table.map (fun row => row.map (stripFun none)))), true) := by
  cases table with
  | nil => exact absurd rfl hne
  | cons row0 trest =>
    obtain ⟨h0ne, h0rs⟩ := hline row0 (List.mem_cons_self row0 trest)
    have hl0 : row0.length = w := hlen row0 (List.mem_cons_self row0 trest)
    have hrow0_ne : row0 ≠ [] := by
      intro hr
      rw [hr] at hl0
      simp at hl0
      omega
    have hsp0 : pySplit (some sep) (writeLine sep row0) = row0 :=
      pySplit_writeLine (hcell row0 (List.mem_cons_self row0 trest)) hrow0_ne
    obtain ⟨m, hm, hmw⟩ := range_max?_lt hw
    have hfd : firstDataLine (roundtripArgs sep).skip_blank (roundtripArgs sep).comment
        (writeLine sep row0 :: writeTable sep trest)
        = some (writeLine sep row0, writeTable sep trest) := by
      simp only [firstDataLine, h0rs]
      rw [if_neg h0ne]
      rw [show commentHit (roundtripArgs sep).comment (writeLine sep row0) = false from rfl]
      simp
    have hsetup : sreadSetup (roundtripArgs sep) (writeTable sep (row0 :: trest))
        = (Except.ok ⟨[], writeLine sep row0, row0, writeTable sep trest,
            some sep, List.range w, m⟩, false) := by
      simp only [sreadSetup]
      rw [show (roundtripArgs sep).hskip = 0 from rfl, show (roundtripArgs sep).skip = 0 from rfl]
      simp only [Nat.sub_zero, Nat.sub_self, List.drop_zero, List.range_zero, List.map_nil]
      rw [show writeTable sep (row0 :: trest)
          = writeLine sep row0 :: writeTable sep trest from rfl]
      rw [hfd]
      simp only [sreadSetupLine]
      rw [show (sniffSep (roundtripArgs sep).separator (writeLine sep row0)).1 = some sep from rfl]
      rw [show (sniffSep (roundtripArgs sep).separator (writeLine sep row0)).2
          = pySplit (some sep) (writeLine sep row0) from rfl]
      rw [hsp0]
      rw [show (ncNonzero (roundtripArgs sep).nc && (roundtripArgs sep).cname.isSome)
          = false from rfl]
      simp only [Bool.false_eq_true, if_false]
      rw [show (roundtripArgs sep).cname = none from rfl]
      rw [show (roundtripArgs sep).nc = Sum.inl 0 from rfl]
      simp only [le_refl, if_pos]
      rw [show (roundtripArgs sep).cskip = 0 from rfl]
      rw [hl0, Nat.sub_zero, ← List.range_eq_range']
      simp only [mkSetup, hm]
    have hsr : sread (roundtripArgs sep) (writeTable sep (row0 :: trest))
        = dataPath (roundtripArgs sep) ⟨[], writeLine sep row0, row0, writeTable sep trest,
            some sep, List.range w, m⟩ := by
      simp [sread, hsetup, show (roundtripArgs sep).header = false from rfl]
    rw [hsr]
    unfold dataPath
    rw [if_neg (by
      intro hco
      obtain ⟨hc1, _⟩ := hco
      simp only at hc1
      rw [hl0] at hc1
      omega)]
    have hlv0 : line2var row0 (List.range w) (roundtripArgs sep).strip
        = row0.map (stripFun none) := by
      rw [show (roundtripArgs sep).strip = none from rfl, ← hl0]
      exact line2var_full row0 none
    simp only
    rw [hlv0]
    rw [dataLoop_roundtrip sep w m hmw trest [row0.map (stripFun none)]
      (fun r hr => hlen r (List.mem_cons_of_mem _ hr))
      (fun r hr => hcell r (List.mem_cons_of_mem _ hr))
      (fun r hr => hline r (List.mem_cons_of_mem _ hr))]
    rw [postProcess_id rfl rfl rfl rfl]
    simp

/-- Concrete instance of `sread_roundtrip_strips_quotes`: a two-row
table with a quoted cell, written with comma separators. -/
theorem sread_roundtrip_strips_quotes_witness :
    sread (roundtripArgs ',') (writeTable ',' [[['a'], ['b', 'b']], [['"', 'c', '"'], ['d']]])
      = (Except.ok (SOut.table [[['a'], ['b', 'b']], [['c'], ['d']]]), true) := by
  have h := sread_roundtrip_strips_quotes ',' 2 (by decide)
    [[['a'], ['b', 'b']], [['"', 'c', '"'], ['d']]]
    (by decide) (by decide) (by decide) (by decide)
  rw [h]
  decide

end Jams
